import Mathlib

/-!
# Verification of the landmark-api rate-limiting and usage-accounting core

Shallow embedding of the Go sources:

* `internal/config/rate_limit.go` — plan limit registry;
* `internal/middleware/ratelimit.go` — rate-limit decision point and IP burst guard;
* `internal/services/api_usage_service.go` — subscription-anchored usage service;
* `unnamed/part_012` (`repository.apiUsageRepository.IncrementUsage`, the
  subscription-anchored variant) and
  `internal/repository/api_usage_repository.go` (the calendar-month variant);
* `unnamed/part_016` (`subscriptionRepository.GetActiveByUserID`);
* `unnamed/part_018` (the calendar-month usage service variant).

Go `time.Time` values are modelled as `Int` — seconds since the Unix epoch in
UTC (the core only manipulates whole seconds: `AddDate`, `Add(-time.Second)`,
`Before`, `After`, `Unix`).  Calendar-month addition (`AddDate(0, 1, 0)`) is
modelled by converting to proleptic-Gregorian civil dates and back, which is
the semantics of Go's `time` package for UTC times.
-/

namespace LandmarkApi

/-! ## Civil (proleptic Gregorian) calendar arithmetic

`daysFromCivil`/`civilFromDays` convert between a civil date `(y, m, d)` and a
day count relative to 1970-01-01, implementing the proleptic Gregorian
calendar (400-year eras of 146097 days; the semantics of Go's `time`
package for UTC).  All divisions are `Int` divisions by positive numerals
(Euclidean division, which agrees with floor division for positive
divisors). -/

/-- Day offset, within a 400-year era, of March 1 of year-of-era `v`
(years of the era counted from a March 1 so that leap days fall last). -/
def eraYearStart (v : Int) : Int :=
  365 * v + v / 4 - v / 100 + v / 400

/-- Year-of-era containing day-of-era `doe ∈ [0, 146096]`: a first
approximation `doe / 365` overshoots by at most one and is corrected by
comparing with `eraYearStart`. -/
def yoeOf (doe : Int) : Int :=
  let a := doe / 365
  if doe < eraYearStart a then a - 1 else a

/-- Day number (days since 1970-01-01) of the civil date `(y, m, d)`,
for `m ∈ [1,12]`; linear in `d`. -/
def daysFromCivil (y m d : Int) : Int :=
  let y' := if m ≤ 2 then y - 1 else y
  let era := y' / 400
  let yoe := y' - era * 400
  let mp := (m + 9) % 12
  let doy := (153 * mp + 2) / 5 + d - 1
  era * 146097 + eraYearStart yoe + doy - 719468

/-- Civil date `(y, m, d)` of a day number (days since 1970-01-01). -/
def civilFromDays (z : Int) : Int × Int × Int :=
  let w := z + 719468
  let era := w / 146097
  let doe := w - era * 146097
  let yoe := yoeOf doe
  let doy := doe - eraYearStart yoe
  let mp := (5 * doy + 2) / 153
  let d := doy - (153 * mp + 2) / 5 + 1
  let m := if mp < 10 then mp + 3 else mp - 9
  let y := yoe + era * 400
  (if m ≤ 2 then y + 1 else y, m, d)

/-- Day number of `(y, m, d)` where the month may be out of `[1,12]`
(Go's `time.Date` normalisation: excess months roll into years, the day is an
offset from the first of the normalised month). -/
def dateToDays (y m d : Int) : Int :=
  let y' := y + (m - 1) / 12
  let m' := (m - 1) % 12 + 1
  daysFromCivil y' m' 1 + (d - 1)

/-- `time.Date(y, m, d, h, mi, s, 0, time.UTC)` as seconds since the epoch. -/
def mkTime (y m d h mi s : Int) : Int :=
  86400 * dateToDays y m d + 3600 * h + 60 * mi + s

/-- `t.AddDate(0, n, 0)`: decompose `t` into its civil date and time of day,
add `n` months, renormalise. -/
def addMonths (t n : Int) : Int :=
  let z := t / 86400
  let tod := t - 86400 * z
  let c := civilFromDays z
  86400 * dateToDays c.1 (c.2.1 + n) c.2.2 + tod

theorem yoeOf_spec (doe : Int) (h0 : 0 ≤ doe) (h1 : doe ≤ 146096) :
    0 ≤ yoeOf doe ∧ yoeOf doe ≤ 399 ∧ eraYearStart (yoeOf doe) ≤ doe ∧
      doe < eraYearStart (yoeOf doe + 1) := by
  unfold yoeOf eraYearStart
  dsimp only
  split_ifs <;> (try simp only [sub_add_cancel]) <;> omega

/-- Generic round-trip step: any civil date assembled the way `civilFromDays`
assembles one (bounded year-of-era, day-of-year and month-offset) maps back to
its day number, and the first of the following month is a strictly later
day. -/
theorem roundtrip_aux (era yoe doy mp dd m y z : Int)
    (hy0 : 0 ≤ yoe) (hy1 : yoe ≤ 399) (hd0 : 0 ≤ doy) (hd1 : doy ≤ 365)
    (hz : z = era * 146097 + eraYearStart yoe + doy - 719468)
    (hmp0 : 0 ≤ mp) (hmp1 : mp ≤ 11)
    (hmpc : 153 * mp ≤ 5 * doy + 2 ∧ 5 * doy + 2 < 153 * mp + 153)
    (hdd : dd = doy - (153 * mp + 2) / 5 + 1)
    (hm : m = if mp < 10 then mp + 3 else mp - 9)
    (hy : y = if m ≤ 2 then yoe + era * 400 + 1 else yoe + era * 400) :
    dateToDays y m dd = z ∧ z < dateToDays y (m + 1) dd := by
  subst hz hdd hm hy
  unfold dateToDays daysFromCivil eraYearStart
  dsimp only
  interval_cases mp <;> split_ifs <;> constructor <;> omega

/-- The components of `civilFromDays z`, written without `let`s. -/
theorem civilFromDays_eq (z : Int) :
    civilFromDays z =
      (if (if (5 * (z + 719468 - (z + 719468) / 146097 * 146097 -
              eraYearStart (yoeOf (z + 719468 - (z + 719468) / 146097 * 146097))) + 2) / 153 < 10
           then (5 * (z + 719468 - (z + 719468) / 146097 * 146097 -
              eraYearStart (yoeOf (z + 719468 - (z + 719468) / 146097 * 146097))) + 2) / 153 + 3
           else (5 * (z + 719468 - (z + 719468) / 146097 * 146097 -
              eraYearStart (yoeOf (z + 719468 - (z + 719468) / 146097 * 146097))) + 2) / 153 - 9) ≤ 2
       then yoeOf (z + 719468 - (z + 719468) / 146097 * 146097) + (z + 719468) / 146097 * 400 + 1
       else yoeOf (z + 719468 - (z + 719468) / 146097 * 146097) + (z + 719468) / 146097 * 400,
       if (5 * (z + 719468 - (z + 719468) / 146097 * 146097 -
              eraYearStart (yoeOf (z + 719468 - (z + 719468) / 146097 * 146097))) + 2) / 153 < 10
       then (5 * (z + 719468 - (z + 719468) / 146097 * 146097 -
              eraYearStart (yoeOf (z + 719468 - (z + 719468) / 146097 * 146097))) + 2) / 153 + 3
       else (5 * (z + 719468 - (z + 719468) / 146097 * 146097 -
              eraYearStart (yoeOf (z + 719468 - (z + 719468) / 146097 * 146097))) + 2) / 153 - 9,
       z + 719468 - (z + 719468) / 146097 * 146097 -
           eraYearStart (yoeOf (z + 719468 - (z + 719468) / 146097 * 146097)) -
         (153 * ((5 * (z + 719468 - (z + 719468) / 146097 * 146097 -
              eraYearStart (yoeOf (z + 719468 - (z + 719468) / 146097 * 146097))) + 2) / 153) + 2) / 5
         + 1) := by
  rfl

/-- The civil date produced by `civilFromDays` maps back to its day number,
and the first of the following civil month is a strictly later day. -/
theorem civilFromDays_spec (z : Int) :
    dateToDays (civilFromDays z).1 (civilFromDays z).2.1 (civilFromDays z).2.2 = z ∧
      z < dateToDays (civilFromDays z).1 ((civilFromDays z).2.1 + 1) (civilFromDays z).2.2 := by
  obtain ⟨h0, h1, h2, h3⟩ :=
    yoeOf_spec (z + 719468 - (z + 719468) / 146097 * 146097) (by omega) (by omega)
  have hE : ∀ v : Int, eraYearStart v = 365 * v + v / 4 - v / 100 + v / 400 := fun _ => rfl
  have hd0 : 0 ≤ z + 719468 - (z + 719468) / 146097 * 146097 -
      eraYearStart (yoeOf (z + 719468 - (z + 719468) / 146097 * 146097)) := by omega
  have hd1 : z + 719468 - (z + 719468) / 146097 * 146097 -
      eraYearStart (yoeOf (z + 719468 - (z + 719468) / 146097 * 146097)) ≤ 365 := by
    rcases lt_or_eq_of_le h1 with hlt | h399
    · have hf : yoeOf (z + 719468 - (z + 719468) / 146097 * 146097) / 400 = 0 := by omega
      have hi : (yoeOf (z + 719468 - (z + 719468) / 146097 * 146097) + 1) / 400 = 0 := by
        omega
      rw [hE (yoeOf _ + 1)] at h3
      rw [hE] at h2 ⊢
      omega
    · rw [hE (yoeOf _ + 1)] at h3
      rw [hE] at h2 ⊢
      rw [h399] at h3 h2 ⊢
      omega
  rw [civilFromDays_eq]
  dsimp only
  exact roundtrip_aux ((z + 719468) / 146097)
    (yoeOf (z + 719468 - (z + 719468) / 146097 * 146097))
    (z + 719468 - (z + 719468) / 146097 * 146097 -
      eraYearStart (yoeOf (z + 719468 - (z + 719468) / 146097 * 146097)))
    _ _ _ _ z h0 h1 hd0 hd1
    (by rw [hE]; ring)
    (by omega) (by omega) (by constructor <;> omega)
    rfl rfl rfl

/-- Adding one calendar month to an instant (Go's `AddDate(0, 1, 0)`) yields a
strictly later instant. -/
theorem lt_addMonths_one (t : Int) : t < addMonths t 1 := by
  have h := (civilFromDays_spec (t / 86400)).2
  have h1 := (civilFromDays_spec (t / 86400)).1
  unfold addMonths
  dsimp only
  omega

/-! ## The billing-period roll loop

`internal/services/api_usage_service.go` (`GetCurrentUsage`, lines 50–56) and
`unnamed/part_012` (`IncrementUsage`, lines 85–97) contain the same loop:

```go
if now.After(periodEnd) {
    for periodEnd.Before(now) {
        periodStart = periodEnd
        periodEnd = periodEnd.AddDate(0, 1, 0)
    }
}
```

The outer `if` has the same condition as the first loop test, so the whole
block is the loop `rollPeriod`; whether the subscription must afterwards be
saved is `pe < now` on entry. -/

/-- The roll loop: advance `(ps, pe)` by whole months until `pe` is not
before `now`. -/
def rollPeriod (ps pe now : Int) : Int × Int :=
  if pe < now then rollPeriod pe (addMonths pe 1) now else (ps, pe)
  termination_by (now - pe).toNat
  decreasing_by
    have := lt_addMonths_one pe
    omega

theorem rollPeriod_of_not_lt (ps pe now : Int) (h : ¬ pe < now) :
    rollPeriod ps pe now = (ps, pe) := by
  rw [rollPeriod.eq_def, if_neg h]

theorem rollPeriod_of_lt (ps pe now : Int) (h : pe < now) :
    rollPeriod ps pe now = rollPeriod pe (addMonths pe 1) now := by
  rw [rollPeriod.eq_def, if_pos h]

/-- The window returned by the roll loop never ends before `now`, provided it
did not already end before `now` or had to roll (i.e. unconditionally for the
second component's final value relative to `now`, whenever the loop rolled at
least once or `now ≤ pe` held on entry). -/
theorem rollPeriod_end_not_before (ps pe now : Int) :
    now ≤ (rollPeriod ps pe now).2 := by
  by_cases h : pe < now
  · rw [rollPeriod_of_lt ps pe now h]
    have : (now - addMonths pe 1).toNat < (now - pe).toNat := by
      have := lt_addMonths_one pe
      omega
    exact rollPeriod_end_not_before pe (addMonths pe 1) now
  · rw [rollPeriod_of_not_lt ps pe now h]
    omega
  termination_by (now - pe).toNat

/-- `k`-fold month advance of an instant. -/
def monthsAfter (pe : Int) : Nat → Int
  | 0 => pe
  | n + 1 => addMonths (monthsAfter pe n) 1

theorem monthsAfter_shift (pe : Int) (j : Nat) :
    monthsAfter (addMonths pe 1) j = monthsAfter pe (j + 1) := by
  induction j with
  | zero => rfl
  | succ n ih => simpa [monthsAfter] using congrArg (addMonths · 1) ih

/-- If the window is already stale by exactly `k ≥ 1` whole periods
(every advance short of `k` is still before `now`, the `k`-th is not), the
roll loop advances by exactly `k` periods. -/
theorem rollPeriod_eq_monthsAfter (now : Int) :
    ∀ (k : Nat) (ps pe : Int), 0 < k → (∀ j, j < k → monthsAfter pe j < now) →
      now ≤ monthsAfter pe k →
      rollPeriod ps pe now = (monthsAfter pe (k - 1), monthsAfter pe k) := by
  intro k
  induction k with
  | zero => intro ps pe h; omega
  | succ n ih =>
    intro ps pe _ hlt hge
    have h0 : pe < now := by simpa [monthsAfter] using hlt 0 (Nat.succ_pos n)
    rw [rollPeriod_of_lt ps pe now h0]
    rcases Nat.eq_zero_or_pos n with hn | hn
    · subst hn
      have : ¬ addMonths pe 1 < now := by
        simpa [monthsAfter] using not_lt.mpr hge
      rw [rollPeriod_of_not_lt _ _ _ this]
      simp [monthsAfter]
    · have h1 := ih pe (addMonths pe 1) hn
        (fun j hj => by
          rw [monthsAfter_shift]
          exact hlt (j + 1) (by omega))
        (by rw [monthsAfter_shift]; exact hge)
      rw [h1, monthsAfter_shift, monthsAfter_shift]
      congr 2
      omega

/-! ## Data model

`models.Subscription` (`unnamed/part_011`) and `models.APIUsage`
(`internal/models`, second section of `admin_token.go`'s file group).  Only the
fields the usage core reads are modelled; `EndDate` is modelled as a
non-optional instant, which is how the usage code reads it.  `id` stands for
the gorm primary key (`gorm.io` `Save` updates the row with the same primary
key). -/

structure Subscription where
  id : Nat
  userID : String
  planType : String
  startDate : Int
  endDate : Int
  status : String
  deriving Repr, DecidableEq

structure APIUsage where
  id : Nat
  userID : String
  requestCount : Int
  periodStart : Int
  periodEnd : Int
  deriving Repr, DecidableEq

/-- The persistent store visible to the usage core: the `subscriptions` and
`api_usages` tables.  `nextUsageId` models primary-key assignment on insert. -/
structure DB where
  subscriptions : List Subscription
  usages : List APIUsage
  nextUsageId : Nat
  deriving Repr, DecidableEq

/-- `gorm` errors the usage core distinguishes: `ErrRecordNotFound` versus
any other (infrastructure) failure. -/
inductive DBErr where
  | recordNotFound
  | unavailable
  deriving Repr, DecidableEq

instance {ε α : Type} [DecidableEq ε] [DecidableEq α] : DecidableEq (Except ε α) :=
  fun a b =>
    match a, b with
    | .ok x, .ok y => decidable_of_iff (x = y) (by simp)
    | .error x, .error y => decidable_of_iff (x = y) (by simp)
    | .ok _, .error _ => isFalse (by simp)
    | .error _, .ok _ => isFalse (by simp)

/-- `tx.Where("user_id = ?", userID).First(&subscription)`. -/
def findSubByUser (db : DB) (userID : String) : Option Subscription :=
  db.subscriptions.find? (fun s => s.userID == userID)

/-- `Save(&subscription)`: update the row with the same primary key. -/
def saveSubscription (l : List Subscription) (s : Subscription) : List Subscription :=
  l.map (fun x => if x.id == s.id then s else x)

/-- `Save(&usage)`: update the row with the same primary key. -/
def saveUsage (l : List APIUsage) (u : APIUsage) : List APIUsage :=
  l.map (fun x => if x.id == u.id then u else x)

/-- `Where("user_id = ? AND period_start = ? AND period_end = ?").First(&usage)`
— the lookup both repository variants use (`api_usage_repository.go` line 26,
`unnamed/part_012` line 65 and 101). -/
def usagePred (userID : String) (ps pe : Int) : APIUsage → Bool :=
  fun u => u.userID == userID && u.periodStart == ps && u.periodEnd == pe

def findUsage (db : DB) (userID : String) (ps pe : Int) : Option APIUsage :=
  db.usages.find? (usagePred userID ps pe)

/-! ## The two usage-ledger stacks

The repository exists in two variants.  `unnamed/part_012` keys usage by the
subscription's rolled window and persists the roll inside the transaction; the
`internal/repository/api_usage_repository.go` variant keys usage by the UTC
calendar month and never reads the subscription.  Both are embedded; each
`Transaction(func(tx){...})` body becomes one atomic state transformer. -/

/-- `apiUsageRepository.IncrementUsage` of `unnamed/part_012` (lines 73–122):
inside one transaction, read the subscription (error when absent), roll the
period, persist the subscription when the window changed, find-or-create the
usage row for the rolled window, increment. -/
def incrementUsageSub (db : DB) (now : Int) (userID : String) : Except DBErr DB :=
  match findSubByUser db userID with
  | none => .error .recordNotFound
  | some sub =>
    let rolled := rollPeriod sub.startDate sub.endDate now
    let db1 : DB :=
      if sub.endDate < now then
        { db with subscriptions :=
            (saveSubscription db.subscriptions
              { sub with startDate := rolled.1, endDate := rolled.2 }) }
      else db
    match findUsage db1 userID rolled.1 rolled.2 with
    | none =>
      .ok { db1 with
            usages := db1.usages ++
              [{ id := db1.nextUsageId, userID := userID, requestCount := 1,
                 periodStart := rolled.1, periodEnd := rolled.2 }],
            nextUsageId := db1.nextUsageId + 1 }
    | some u =>
      .ok { db1 with
            usages := saveUsage db1.usages { u with requestCount := u.requestCount + 1 } }

/-- First day of `now`'s UTC calendar month
(`time.Date(now.Year(), now.Month(), 1, 0, 0, 0, 0, time.UTC)`). -/
def calPeriodStart (now : Int) : Int :=
  mkTime (civilFromDays (now / 86400)).1 (civilFromDays (now / 86400)).2.1 1 0 0 0

/-- `periodStart.AddDate(0, 1, 0).Add(-time.Second)`. -/
def calPeriodEnd (now : Int) : Int :=
  addMonths (calPeriodStart now) 1 - 1

/-- `apiUsageRepository.IncrementUsage` of
`internal/repository/api_usage_repository.go` (lines 34–61): key the usage row
by the UTC calendar-month window of `now`; find-or-create and increment inside
one transaction; the subscription is never read. -/
def incrementUsageCal (db : DB) (now : Int) (userID : String) : Except DBErr DB :=
  let ps := calPeriodStart now
  let pe := calPeriodEnd now
  match findUsage db userID ps pe with
  | none =>
    .ok { db with
          usages := db.usages ++
            [{ id := db.nextUsageId, userID := userID, requestCount := 1,
               periodStart := ps, periodEnd := pe }],
          nextUsageId := db.nextUsageId + 1 }
  | some u =>
    .ok { db with
          usages := saveUsage db.usages { u with requestCount := u.requestCount + 1 } }

/-- `subscriptionRepository.GetActiveByUserID` (`unnamed/part_016`, lines
66–79): the first subscription of the user with status `active` whose
`end_date` is strictly after `now` (the nullable-`end_date` disjunct is not
representable with the non-optional `endDate` the usage code requires). -/
def getActiveSubByUser (db : DB) (now : Int) (userID : String) : Option Subscription :=
  db.subscriptions.find?
    (fun s => s.userID == userID && s.status == "active" && decide (now < s.endDate))

/-- `services.UsageStats` (`internal/services/api_usage_service.go`). -/
structure UsageStats where
  currentCount : Int
  limit : Int
  remainingRequests : Int
  periodEnd : Int
  deriving Repr, DecidableEq

/-- `apiUsageService.GetCurrentUsage` of `internal/services/api_usage_service.go`
(lines 39–80): fetch the active subscription (error when absent), roll the
window in memory only, read the usage row for the rolled window (absent means
zero), and assemble `UsageStats` with the plan's limit. -/
def getCurrentUsageService (db : DB) (now : Int) (userID : String)
    (plan : String) (limits : String → Int) : Except DBErr UsageStats :=
  match getActiveSubByUser db now userID with
  | none => .error .recordNotFound
  | some sub =>
    let rolled := rollPeriod sub.startDate sub.endDate now
    let count :=
      match findUsage db userID rolled.1 rolled.2 with
      | none => 0
      | some u => u.requestCount
    let limit := limits plan
    .ok { currentCount := count, limit := limit,
          remainingRequests := limit - count, periodEnd := rolled.2 }

/-- `apiUsageService.GetCurrentUsage` of `unnamed/part_018` (lines 34–61): the
calendar-month variant; never reads the subscription. -/
def getCurrentUsageServiceCal (db : DB) (now : Int) (userID : String)
    (plan : String) (limits : String → Int) : Except DBErr UsageStats :=
  let ps := calPeriodStart now
  let pe := calPeriodEnd now
  let count :=
    match findUsage db userID ps pe with
    | none => 0
    | some u => u.requestCount
  let limit := limits plan
  .ok { currentCount := count, limit := limit,
        remainingRequests := limit - count, periodEnd := pe }

/-! ## Plan limit registry

`config.NewRateLimitConfig` (`internal/config/rate_limit.go`).  A Go map
lookup for a key that is not in the map yields the zero value `0`; the model
makes that explicit with the final `else 0`. -/

def newRateLimitConfigLimits : String → Int := fun plan =>
  if plan = "FREE" then 1000
  else if plan = "PRO" then 300000
  else if plan = "ENTERPRISE" then -1
  else 0

/-- `RateLimiter.GetLimit` (`internal/middleware/ratelimit.go`, lines 36–38):
`rl.config.Limits[plan]`. -/
def GetLimit (plan : String) : Int := newRateLimitConfigLimits plan

/-! ## Rate-limit decision point

`RateLimiter.RateLimit` (`internal/middleware/ratelimit.go`), from the usage
read onwards (lines 66–92): the decision core operating on the user's plan,
the usage-service outcome, and the wrapped response writer's `X-Cache`
header.  `Header().Get` returns the empty string when the header is absent,
so the absent case is `Option.getD "" `. -/

structure RateHeaders where
  limit : Int
  remaining : Int
  reset : Int
  deriving Repr, DecidableEq

inductive Response where
  | usageFetchFailed
  | rateLimitExceeded (h : RateHeaders)
  | served (h : RateHeaders)
  deriving Repr, DecidableEq

structure MWResult where
  response : Response
  handlerInvoked : Bool
  incrementCalled : Bool
  deriving Repr, DecidableEq

def rateLimitDecision (limits : String → Int) (plan : String)
    (usageRes : Except DBErr UsageStats) (cacheHeader : Option String)
    (incrementFails : Bool) : MWResult :=
  match usageRes with
  | .error _ =>
    { response := .usageFetchFailed, handlerInvoked := false, incrementCalled := false }
  | .ok stats =>
    let limit := limits plan
    if 0 ≤ limit ∧ limit ≤ stats.currentCount then
      { response := .rateLimitExceeded { limit := limit, remaining := 0, reset := stats.periodEnd },
        handlerInvoked := false, incrementCalled := false }
    else
      let isCacheHit := cacheHeader.getD "" == "HIT"
      let newCount := if isCacheHit then stats.currentCount else stats.currentCount + 1
      { response := .served { limit := limit, remaining := limit - newCount,
                              reset := stats.periodEnd },
        handlerInvoked := true, incrementCalled := !isCacheHit }

/-! ## IP burst guard

`RateLimiter.isIPRateLimited` (`internal/middleware/ratelimit.go`, lines
97–119): per-address entry with a count and a last-seen instant;
`time.Minute` is 60 seconds in the second-granularity time model. -/

structure IPLimitEntry where
  count : Int
  lastSeen : Int
  deriving Repr, DecidableEq

/-- One call of the guard for an address whose map entry is `entry`
(`none` when the address is unseen).  Returns the decision and the new
entry. -/
def isIPRateLimited (ipBurstLimit : Int) (now : Int) (entry : Option IPLimitEntry) :
    Bool × IPLimitEntry :=
  match entry with
  | none => (false, { count := 1, lastSeen := now })
  | some l =>
    if 60 < now - l.lastSeen then
      (false, { count := 1, lastSeen := now })
    else
      (decide (ipBurstLimit < l.count + 1), { count := l.count + 1, lastSeen := now })

/-! ## Derived notions and store invariants -/

/-- The composite identity of a usage row: (user, period start, period end). -/
def usageKey (u : APIUsage) : String × Int × Int :=
  (u.userID, u.periodStart, u.periodEnd)

/-- The counter the store holds for a (user, period) key; an absent row means
zero (`GetCurrentUsage` both in the repositories and in the services treats
`ErrRecordNotFound` as zero usage). -/
def usageCountFor (db : DB) (userID : String) (ps pe : Int) : Int :=
  match findUsage db userID ps pe with
  | none => 0
  | some u => u.requestCount

/-- Store well-formedness: primary keys are unique and below the allocator,
and at most one usage row exists per (user, period start, period end). -/
def DB.wf (db : DB) : Prop :=
  db.usages.Pairwise (fun a b => a.id ≠ b.id) ∧
  (∀ u ∈ db.usages, u.id < db.nextUsageId) ∧
  db.usages.Pairwise (fun a b => usageKey a ≠ usageKey b) ∧
  db.subscriptions.Pairwise (fun a b => a.id ≠ b.id)

instance (db : DB) : Decidable db.wf := by
  unfold DB.wf
  infer_instance

section ListHelpers

variable {α : Type}

theorem find?_append_of_none (l₁ l₂ : List α) (p : α → Bool) (h : l₁.find? p = none) :
    (l₁ ++ l₂).find? p = l₂.find? p := by
  induction l₁ with
  | nil => rfl
  | cons a l ih =>
    cases hpa : p a with
    | true => rw [List.find?_cons_of_pos _ hpa] at h; exact absurd h (by simp)
    | false =>
      rw [List.find?_cons_of_neg _ (by simp [hpa])] at h
      rw [List.cons_append, List.find?_cons_of_neg _ (by simp [hpa])]
      exact ih h

/-- Updating the row with a given primary key: `find?` afterwards returns the
updated row, provided the original row was the one found and ids are unique. -/
theorem find?_map_replace (idOf : α → Nat) (l : List α) (p : α → Bool) (u u' : α)
    (hfind : l.find? p = some u) (hid : idOf u' = idOf u) (hp : p u' = true)
    (hnodup : l.Pairwise (fun a b => idOf a ≠ idOf b)) :
    (l.map (fun x => if idOf x == idOf u' then u' else x)).find? p = some u' := by
  induction l with
  | nil => simp at hfind
  | cons a l ih =>
    obtain ⟨ha, hl⟩ := List.pairwise_cons.mp hnodup
    cases hpa : p a with
    | true =>
      rw [List.find?_cons_of_pos _ hpa] at hfind
      obtain rfl : a = u := by injection hfind
      rw [List.map_cons, if_pos (by simp [hid]), List.find?_cons_of_pos _ hp]
    | false =>
      rw [List.find?_cons_of_neg _ (by simp [hpa])] at hfind
      have hmem : u ∈ l := List.mem_of_find?_eq_some hfind
      have hne : idOf a ≠ idOf u := ha u hmem
      rw [List.map_cons, if_neg (by simp [hid, hne]),
        List.find?_cons_of_neg _ (by simp [hpa])]
      exact ih hfind hl

/-- Replacing a row by primary key does not change the list of primary keys. -/
theorem map_id_map_replace (idOf : α → Nat) (l : List α) (u' : α) :
    (l.map (fun x => if idOf x == idOf u' then u' else x)).map idOf = l.map idOf := by
  induction l with
  | nil => rfl
  | cons a l ih =>
    simp only [List.map_cons, ih]
    congr 1
    by_cases h : idOf a = idOf u' <;> simp [h]

/-- Replacing a row by primary key with a row of the same composite key
preserves composite-key uniqueness. -/
theorem pairwise_key_map_replace {β : Type} (idOf : α → Nat) (keyOf : α → β)
    (l : List α) (u u' : α)
    (hu : u ∈ l) (hkey : keyOf u' = keyOf u) (hid : idOf u' = idOf u)
    (hnodup : l.Pairwise (fun a b => idOf a ≠ idOf b))
    (hpair : l.Pairwise (fun a b => keyOf a ≠ keyOf b)) :
    (l.map (fun x => if idOf x == idOf u' then u' else x)).Pairwise
      (fun a b => keyOf a ≠ keyOf b) := by
  induction l with
  | nil => simp
  | cons a l ih =>
    obtain ⟨hna, hnl⟩ := List.pairwise_cons.mp hnodup
    obtain ⟨hka, hkl⟩ := List.pairwise_cons.mp hpair
    rcases List.mem_cons.mp hu with rfl | hul
    · have htail : l.map (fun x => if idOf x == idOf u' then u' else x) = l := by
        have hfix : ∀ x ∈ l, (fun x => if idOf x == idOf u' then u' else x) x = x := by
          intro x hx
          have := hna x hx
          simp [hid]
          omega
        calc l.map _ = l.map id := List.map_congr_left hfix
        _ = l := List.map_id l
      rw [List.map_cons, htail]
      have hrepl : (if (idOf u == idOf u') = true then u' else u) = u' := by simp [hid]
      rw [hrepl]
      exact List.pairwise_cons.mpr ⟨fun b hb => hkey ▸ hka b hb, hkl⟩
    · have hane : idOf a ≠ idOf u := hna u hul
      rw [List.map_cons, if_neg (by simp [hid, hane])]
      refine List.pairwise_cons.mpr ⟨?_, ih hul hnl hkl⟩
      intro b hb
      obtain ⟨x, hx, hfx⟩ := List.mem_map.mp hb
      by_cases hix : idOf x = idOf u'
      · have : b = u' := by rw [← hfx]; simp [hix]
        subst this
        rw [hkey]
        exact hka u hul
      · have : b = x := by rw [← hfx]; simp [hix]
        subst this
        exact hka _ hx

end ListHelpers

theorem usagePred_iff (uid : String) (ps pe : Int) (x : APIUsage) :
    usagePred uid ps pe x = true ↔ usageKey x = (uid, ps, pe) := by
  simp [usagePred, usageKey, Bool.and_eq_true, beq_iff_eq, Prod.ext_iff, and_assoc]

/-- The fresh usage row created on first increment inside a period. -/
def newUsageRow (nextId : Nat) (uid : String) (k1 k2 : Int) : APIUsage :=
  { id := nextId, userID := uid, requestCount := 1, periodStart := k1, periodEnd := k2 }

/-- Generic: replacing a row by primary key preserves primary-key
uniqueness. -/
theorem pairwise_id_of_map_replace {α : Type} (idOf : α → Nat) (l : List α) (u' : α)
    (hids : l.Pairwise (fun a b => idOf a ≠ idOf b)) :
    (l.map (fun x => if idOf x == idOf u' then u' else x)).Pairwise
      (fun a b => idOf a ≠ idOf b) := by
  have h1 : (l.map idOf).Pairwise (fun a b => a ≠ b) := List.pairwise_map.mpr hids
  have h2 := map_id_map_replace idOf l u'
  exact List.pairwise_map.mp (by rw [h2]; exact h1)

/-- Creating the missing usage row (the `ErrRecordNotFound` branch of both
`IncrementUsage` variants) yields a store whose row for the key holds `1`,
with all store invariants preserved. -/
theorem usages_append_spec (usages : List APIUsage) (nextId : Nat) (uid : String)
    (k1 k2 : Int)
    (hnone : usages.find? (usagePred uid k1 k2) = none)
    (hids : usages.Pairwise (fun a b => a.id ≠ b.id))
    (hbound : ∀ u ∈ usages, u.id < nextId)
    (hkeys : usages.Pairwise (fun a b => usageKey a ≠ usageKey b)) :
    (usages ++ [newUsageRow nextId uid k1 k2]).find? (usagePred uid k1 k2) =
        some (newUsageRow nextId uid k1 k2) ∧
      (usages ++ [newUsageRow nextId uid k1 k2]).Pairwise (fun a b => a.id ≠ b.id) ∧
      (∀ u ∈ usages ++ [newUsageRow nextId uid k1 k2], u.id < nextId + 1) ∧
      (usages ++ [newUsageRow nextId uid k1 k2]).Pairwise
        (fun a b => usageKey a ≠ usageKey b) := by
  have hnew : usagePred uid k1 k2 (newUsageRow nextId uid k1 k2) = true := by
    simp [usagePred, newUsageRow]
  have hall := List.find?_eq_none.mp hnone
  refine ⟨?_, ?_, ?_, ?_⟩
  · rw [find?_append_of_none _ _ _ hnone]
    exact List.find?_cons_of_pos _ hnew
  · rw [List.pairwise_append]
    refine ⟨hids, by simp, ?_⟩
    intro a ha b hb
    simp only [List.mem_singleton] at hb
    subst hb
    have := hbound a ha
    simp only [newUsageRow]
    omega
  · intro u hu
    rcases List.mem_append.mp hu with h | h
    · have := hbound u h; omega
    · simp only [List.mem_singleton] at h
      subst h
      simp only [newUsageRow]
      omega
  · rw [List.pairwise_append]
    refine ⟨hkeys, by simp, ?_⟩
    intro a ha b hb
    simp only [List.mem_singleton] at hb
    subst hb
    intro hkeq
    refine hall a ha ((usagePred_iff uid k1 k2 a).mpr ?_)
    simpa [usageKey, newUsageRow] using hkeq

/-- Incrementing the found usage row (the found branch of both
`IncrementUsage` variants) yields a store whose row for the key holds one
more, with all store invariants preserved. -/
theorem usages_save_spec (usages : List APIUsage) (nextId : Nat) (uid : String)
    (k1 k2 : Int) (u : APIUsage)
    (hsome : usages.find? (usagePred uid k1 k2) = some u)
    (hids : usages.Pairwise (fun a b => a.id ≠ b.id))
    (hbound : ∀ x ∈ usages, x.id < nextId)
    (hkeys : usages.Pairwise (fun a b => usageKey a ≠ usageKey b)) :
    (saveUsage usages { u with requestCount := u.requestCount + 1 }).find?
        (usagePred uid k1 k2) = some { u with requestCount := u.requestCount + 1 } ∧
      (saveUsage usages { u with requestCount := u.requestCount + 1 }).Pairwise
        (fun a b => a.id ≠ b.id) ∧
      (∀ x ∈ saveUsage usages { u with requestCount := u.requestCount + 1 },
        x.id < nextId) ∧
      (saveUsage usages { u with requestCount := u.requestCount + 1 }).Pairwise
        (fun a b => usageKey a ≠ usageKey b) := by
  have hpu : usagePred uid k1 k2 u = true := List.find?_some hsome
  have hpu' : usagePred uid k1 k2 { u with requestCount := u.requestCount + 1 } = true := by
    revert hpu
    simp [usagePred]
  have hmem : u ∈ usages := List.mem_of_find?_eq_some hsome
  refine ⟨?_, ?_, ?_, ?_⟩
  · exact find?_map_replace APIUsage.id usages _ u _ hsome rfl hpu' hids
  · exact pairwise_id_of_map_replace APIUsage.id usages _ hids
  · intro x hx
    obtain ⟨y, hy, hfy⟩ := List.mem_map.mp hx
    have hyb := hbound y hy
    have hub := hbound u hmem
    rw [← hfy]
    split_ifs with hc
    · exact hub
    · exact hyb
  · exact pairwise_key_map_replace APIUsage.id usageKey usages u _ hmem rfl rfl hids hkeys

/-- What one successful `IncrementUsage` transaction
(`unnamed/part_012`) does: with the subscription present and the store
well-formed, it commits; the subscription афterwards carries the rolled
window (saved only when the window changed); the counter for the rolled
window goes up by exactly one; and all store invariants are preserved. -/
theorem incrementUsageSub_ok (db : DB) (now : Int) (uid : String) (sub : Subscription)
    (hwf : db.wf) (hsub : findSubByUser db uid = some sub) :
    ∃ db1 sub1,
      incrementUsageSub db now uid = .ok db1 ∧
      sub1.userID = sub.userID ∧
      sub1.startDate = (rollPeriod sub.startDate sub.endDate now).1 ∧
      sub1.endDate = (rollPeriod sub.startDate sub.endDate now).2 ∧
      db1.subscriptions = (if sub.endDate < now
        then saveSubscription db.subscriptions
          { sub with startDate := (rollPeriod sub.startDate sub.endDate now).1, endDate := (rollPeriod sub.startDate sub.endDate now).2 }
        else db.subscriptions) ∧
      findSubByUser db1 uid = some sub1 ∧
      usageCountFor db1 uid (rollPeriod sub.startDate sub.endDate now).1
          (rollPeriod sub.startDate sub.endDate now).2 =
        usageCountFor db uid (rollPeriod sub.startDate sub.endDate now).1
          (rollPeriod sub.startDate sub.endDate now).2 + 1 ∧
      db1.wf := by
  obtain ⟨hids, hbound, hkeys, hsids⟩ := hwf
  have hsub' : db.subscriptions.find? (fun s => s.userID == uid) = some sub := hsub
  have hpsub := @List.find?_some _ _ _ _ hsub'
  by_cases hroll : sub.endDate < now
  · cases hfind : db.usages.find?
        (usagePred uid (rollPeriod sub.startDate sub.endDate now).1
          (rollPeriod sub.startDate sub.endDate now).2) with
    | none =>
      obtain ⟨hf1, hf2, hf3, hf4⟩ := usages_append_spec db.usages db.nextUsageId uid
        (rollPeriod sub.startDate sub.endDate now).1
        (rollPeriod sub.startDate sub.endDate now).2 hfind hids hbound hkeys
      refine ⟨{ subscriptions := (saveSubscription db.subscriptions
                  { sub with startDate := (rollPeriod sub.startDate sub.endDate now).1, endDate := (rollPeriod sub.startDate sub.endDate now).2 }),
                usages := (db.usages ++ [newUsageRow db.nextUsageId uid
                  (rollPeriod sub.startDate sub.endDate now).1
                  (rollPeriod sub.startDate sub.endDate now).2]),
                nextUsageId := db.nextUsageId + 1 },
        { sub with startDate := (rollPeriod sub.startDate sub.endDate now).1, endDate := (rollPeriod sub.startDate sub.endDate now).2 },
        ?_, rfl, rfl, rfl, by rw [if_pos hroll], ?_, ?_, ?_⟩
      · simp only [incrementUsageSub, hsub, if_pos hroll]
        simp only [findUsage, hfind]
        try rfl
      · exact find?_map_replace Subscription.id db.subscriptions _ sub _ hsub' rfl hpsub hsids
      · simp [usageCountFor, findUsage, hfind, hf1, newUsageRow, usagePred]
      · exact ⟨hf2, hf3, hf4,
          pairwise_id_of_map_replace Subscription.id db.subscriptions _ hsids⟩
    | some u =>
      obtain ⟨hf1, hf2, hf3, hf4⟩ := usages_save_spec db.usages db.nextUsageId uid
        (rollPeriod sub.startDate sub.endDate now).1
        (rollPeriod sub.startDate sub.endDate now).2 u hfind hids hbound hkeys
      refine ⟨{ subscriptions := (saveSubscription db.subscriptions
                  { sub with startDate := (rollPeriod sub.startDate sub.endDate now).1, endDate := (rollPeriod sub.startDate sub.endDate now).2 }),
                usages := (saveUsage db.usages { u with requestCount := u.requestCount + 1 }),
                nextUsageId := db.nextUsageId },
        { sub with startDate := (rollPeriod sub.startDate sub.endDate now).1, endDate := (rollPeriod sub.startDate sub.endDate now).2 },
        ?_, rfl, rfl, rfl, by rw [if_pos hroll], ?_, ?_, ?_⟩
      · simp only [incrementUsageSub, hsub, if_pos hroll]
        simp only [findUsage, hfind]
        try rfl
      · exact find?_map_replace Subscription.id db.subscriptions _ sub _ hsub' rfl hpsub hsids
      · simp [usageCountFor, findUsage, hfind, hf1, newUsageRow, usagePred]
      · exact ⟨hf2, hf3, hf4,
          pairwise_id_of_map_replace Subscription.id db.subscriptions _ hsids⟩
  · have hkeq : rollPeriod sub.startDate sub.endDate now = (sub.startDate, sub.endDate) :=
      rollPeriod_of_not_lt _ _ _ hroll
    cases hfind : db.usages.find?
        (usagePred uid (rollPeriod sub.startDate sub.endDate now).1
          (rollPeriod sub.startDate sub.endDate now).2) with
    | none =>
      obtain ⟨hf1, hf2, hf3, hf4⟩ := usages_append_spec db.usages db.nextUsageId uid
        (rollPeriod sub.startDate sub.endDate now).1
        (rollPeriod sub.startDate sub.endDate now).2 hfind hids hbound hkeys
      refine ⟨{ db with
                usages := (db.usages ++ [newUsageRow db.nextUsageId uid
                  (rollPeriod sub.startDate sub.endDate now).1
                  (rollPeriod sub.startDate sub.endDate now).2]),
                nextUsageId := db.nextUsageId + 1 }, sub,
        ?_, rfl, by rw [hkeq], by rw [hkeq], by rw [if_neg hroll], hsub, ?_, ?_⟩
      · simp only [incrementUsageSub, hsub, if_neg hroll]
        simp only [findUsage, hfind]
        try rfl
      · simp [usageCountFor, findUsage, hfind, hf1, newUsageRow, usagePred]
      · exact ⟨hf2, hf3, hf4, hsids⟩
    | some u =>
      obtain ⟨hf1, hf2, hf3, hf4⟩ := usages_save_spec db.usages db.nextUsageId uid
        (rollPeriod sub.startDate sub.endDate now).1
        (rollPeriod sub.startDate sub.endDate now).2 u hfind hids hbound hkeys
      refine ⟨{ db with
                usages := (saveUsage db.usages { u with requestCount := u.requestCount + 1 }) }, sub,
        ?_, rfl, by rw [hkeq], by rw [hkeq], by rw [if_neg hroll], hsub, ?_, ?_⟩
      · simp only [incrementUsageSub, hsub, if_neg hroll]
        simp only [findUsage, hfind]
        try rfl
      · simp [usageCountFor, findUsage, hfind, hf1, newUsageRow, usagePred]
      · exact ⟨hf2, hf3, hf4, hsids⟩

/-- A concrete store used by the witnesses: one active subscription with
window `[0, 100]`, no usage rows yet. -/
def subFixture : Subscription :=
  { id := 1, userID := "u1", planType := "PRO", startDate := 0, endDate := 100,
    status := "active" }

def dbFixture : DB :=
  { subscriptions := [subFixture], usages := [], nextUsageId := 0 }

def dbEmptyFixture : DB :=
  { subscriptions := [], usages := [], nextUsageId := 0 }

/-! ## Iterated increments

Each `IncrementUsage` call is one transaction (`db.Transaction` in
`unnamed/part_012`), i.e. one atomic state transformer of the store.  Any
interleaving of `N` concurrent calls for the same user is therefore some
sequential composition of `N` applications of that transformer, which
`iterIncrementUsageSub` expresses. -/

def iterIncrementUsageSub (now : Int) (uid : String) : Nat → DB → Except DBErr DB
  | 0, db => .ok db
  | n + 1, db =>
    match incrementUsageSub db now uid with
    | .error e => .error e
    | .ok db1 => iterIncrementUsageSub now uid n db1

theorem iterIncrementUsageSub_spec (now : Int) (uid : String) :
    ∀ (N : Nat) (db : DB) (sub : Subscription), db.wf →
      findSubByUser db uid = some sub →
      ∀ k : Int × Int, rollPeriod sub.startDate sub.endDate now = k →
      ∃ db', iterIncrementUsageSub now uid N db = .ok db' ∧
        usageCountFor db' uid k.1 k.2 = usageCountFor db uid k.1 k.2 + (N : Int) ∧
        db'.wf := by
  intro N
  induction N with
  | zero =>
    intro db sub hwf hsub k hk
    exact ⟨db, rfl, by simp, hwf⟩
  | succ n ih =>
    intro db sub hwf hsub k hk
    obtain ⟨db1, sub1, hok, huid, hs, he, hsubs, hfind1, hcount, hwf1⟩ :=
      incrementUsageSub_ok db now uid sub hwf hsub
    have hnb : now ≤ k.2 := by
      rw [← hk]
      exact rollPeriod_end_not_before _ _ _
    have hroll1 : rollPeriod sub1.startDate sub1.endDate now = k := by
      rw [hs, he, hk]
      calc rollPeriod k.1 k.2 now = (k.1, k.2) :=
            rollPeriod_of_not_lt _ _ _ (not_lt.mpr hnb)
        _ = k := rfl
    obtain ⟨db', hiter, hcount', hwf'⟩ := ih db1 sub1 hwf1 hfind1 k hroll1
    refine ⟨db', ?_, ?_, hwf'⟩
    · simp only [iterIncrementUsageSub, hok]
      exact hiter
    · rw [hk] at hcount
      rw [hcount', hcount]
      push_cast
      ring

/-- The read path (`GetCurrentUsage` of the subscription-anchored service):
because `GetActiveByUserID` only returns subscriptions with `end_date > now`,
the in-memory roll is the identity and the usage lookup key is exactly the
subscription's persisted window. -/
theorem getCurrentUsageService_spec (db : DB) (now : Int) (uid plan : String)
    (limits : String → Int) (sub : Subscription)
    (hsub : getActiveSubByUser db now uid = some sub) :
    getCurrentUsageService db now uid plan limits =
      .ok { currentCount := usageCountFor db uid sub.startDate sub.endDate,
            limit := limits plan,
            remainingRequests := limits plan - usageCountFor db uid sub.startDate sub.endDate,
            periodEnd := sub.endDate } := by
  have hsub' : db.subscriptions.find?
      (fun s => s.userID == uid && s.status == "active" && decide (now < s.endDate)) =
      some sub := hsub
  have hp := @List.find?_some _ _ _ _ hsub'
  have hlt : now < sub.endDate := by
    simp only [Bool.and_eq_true, decide_eq_true_eq] at hp
    exact hp.2
  have hroll : rollPeriod sub.startDate sub.endDate now = (sub.startDate, sub.endDate) :=
    rollPeriod_of_not_lt _ _ _ (by omega)
  simp only [getCurrentUsageService, hsub, hroll]
  rfl

/-- C1: for any user with a subscription and any well-formed store, `N`
serialized `IncrementUsage` transactions leave the counter for the effective
(rolled) period exactly `N` greater, and the store stays well-formed — in
particular at most one usage row per (user, period start, period end) exists,
so no split-period duplicate is created.  Because each call is one atomic
transaction, every interleaving of `N` concurrent calls is one of these
sequential compositions, so no increment is lost. -/
theorem concurrent_increments_add_N (now : Int) (uid : String) (N : Nat)
    (db : DB) (sub : Subscription)
    (hwf : db.wf) (hsub : findSubByUser db uid = some sub) :
    ∃ db', iterIncrementUsageSub now uid N db = .ok db' ∧
      usageCountFor db' uid (rollPeriod sub.startDate sub.endDate now).1
          (rollPeriod sub.startDate sub.endDate now).2 =
        usageCountFor db uid (rollPeriod sub.startDate sub.endDate now).1
          (rollPeriod sub.startDate sub.endDate now).2 + (N : Int) ∧
      db'.wf :=
  iterIncrementUsageSub_spec now uid N db sub hwf hsub _ rfl

theorem concurrent_increments_add_N_witness :
    DB.wf dbFixture ∧
    ∃ db', iterIncrementUsageSub 50 "u1" 3 dbFixture = .ok db' ∧
      usageCountFor db' "u1" (rollPeriod 0 100 50).1 (rollPeriod 0 100 50).2 =
        usageCountFor dbFixture "u1" (rollPeriod 0 100 50).1 (rollPeriod 0 100 50).2 +
          ((3 : Nat) : Int) ∧
      db'.wf :=
  ⟨by decide, concurrent_increments_add_N 50 "u1" 3 dbFixture subFixture
    (by decide) (by decide)⟩

/-- C2: one `IncrementUsage` call (`unnamed/part_012`), which runs its whole
body inside one `db.Transaction`: if the subscription row is absent the call
returns the lookup error (no silent success, no accounting skip); otherwise it
commits a store in which the counter for the effective (rolled) period is one
higher and the subscription window was persisted exactly when it changed. -/
theorem increment_usage_transaction_spec (db : DB) (now : Int) (uid : String)
    (hwf : db.wf) :
    (findSubByUser db uid = none → incrementUsageSub db now uid = .error .recordNotFound) ∧
    (∀ sub, findSubByUser db uid = some sub →
      ∃ db1, incrementUsageSub db now uid = .ok db1 ∧
        usageCountFor db1 uid (rollPeriod sub.startDate sub.endDate now).1
            (rollPeriod sub.startDate sub.endDate now).2 =
          usageCountFor db uid (rollPeriod sub.startDate sub.endDate now).1
            (rollPeriod sub.startDate sub.endDate now).2 + 1 ∧
        db1.subscriptions = (if sub.endDate < now
          then saveSubscription db.subscriptions
            { sub with startDate := (rollPeriod sub.startDate sub.endDate now).1, endDate := (rollPeriod sub.startDate sub.endDate now).2 }
          else db.subscriptions)) := by
  constructor
  · intro hnone
    simp only [incrementUsageSub, hnone]
  · intro sub hsub
    obtain ⟨db1, sub1, hok, _, _, _, hsubs, _, hcount, _⟩ :=
      incrementUsageSub_ok db now uid sub hwf hsub
    exact ⟨db1, hok, hcount, hsubs⟩

theorem increment_usage_transaction_spec_witness :
    (findSubByUser dbEmptyFixture "u1" = none →
      incrementUsageSub dbEmptyFixture 50 "u1" = .error .recordNotFound) ∧
    (∀ sub, findSubByUser dbEmptyFixture "u1" = some sub →
      ∃ db1, incrementUsageSub dbEmptyFixture 50 "u1" = .ok db1 ∧
        usageCountFor db1 "u1" (rollPeriod sub.startDate sub.endDate 50).1
            (rollPeriod sub.startDate sub.endDate 50).2 =
          usageCountFor dbEmptyFixture "u1" (rollPeriod sub.startDate sub.endDate 50).1
            (rollPeriod sub.startDate sub.endDate 50).2 + 1 ∧
        db1.subscriptions = (if sub.endDate < 50
          then saveSubscription dbEmptyFixture.subscriptions
            { sub with startDate := (rollPeriod sub.startDate sub.endDate 50).1, endDate := (rollPeriod sub.startDate sub.endDate 50).2 }
          else dbEmptyFixture.subscriptions)) :=
  increment_usage_transaction_spec dbEmptyFixture 50 "u1" (by decide)

/-- C4: reads and increments agree with the persisted window.  For the read
path, `GetActiveByUserID` only ever returns a subscription whose stored
`end_date` is after `now`, so `GetCurrentUsage` queries exactly the persisted
(period start, period end) and reports the persisted `end_date`.  For the
increment path, the roll is persisted onto the subscription inside the
transaction before the usage lookup, so the row the increment touches is
keyed by the post-state subscription's stored window. -/
theorem window_persisted_consistency (db : DB) (now : Int) (uid plan : String)
    (limits : String → Int) (hwf : db.wf) :
    (∀ sub, getActiveSubByUser db now uid = some sub →
      getCurrentUsageService db now uid plan limits =
        .ok { currentCount := usageCountFor db uid sub.startDate sub.endDate,
              limit := limits plan,
              remainingRequests := limits plan - usageCountFor db uid sub.startDate sub.endDate,
              periodEnd := sub.endDate }) ∧
    (∀ sub, findSubByUser db uid = some sub →
      ∃ db1 sub1, incrementUsageSub db now uid = .ok db1 ∧
        findSubByUser db1 uid = some sub1 ∧
        usageCountFor db1 uid sub1.startDate sub1.endDate =
          usageCountFor db uid sub1.startDate sub1.endDate + 1) := by
  constructor
  · intro sub hsub
    exact getCurrentUsageService_spec db now uid plan limits sub hsub
  · intro sub hsub
    obtain ⟨db1, sub1, hok, _, hs, he, _, hfind1, hcount, _⟩ :=
      incrementUsageSub_ok db now uid sub hwf hsub
    refine ⟨db1, sub1, hok, hfind1, ?_⟩
    rw [hs, he]
    exact hcount

theorem window_persisted_consistency_witness :
    (∀ sub, getActiveSubByUser dbFixture 50 "u1" = some sub →
      getCurrentUsageService dbFixture 50 "u1" "PRO" newRateLimitConfigLimits =
        .ok { currentCount := usageCountFor dbFixture "u1" sub.startDate sub.endDate,
              limit := newRateLimitConfigLimits "PRO",
              remainingRequests := newRateLimitConfigLimits "PRO" -
                usageCountFor dbFixture "u1" sub.startDate sub.endDate,
              periodEnd := sub.endDate }) ∧
    (∀ sub, findSubByUser dbFixture "u1" = some sub →
      ∃ db1 sub1, incrementUsageSub dbFixture 50 "u1" = .ok db1 ∧
        findSubByUser db1 "u1" = some sub1 ∧
        usageCountFor db1 "u1" sub1.startDate sub1.endDate =
          usageCountFor dbFixture "u1" sub1.startDate sub1.endDate + 1) :=
  window_persisted_consistency dbFixture 50 "u1" "PRO" newRateLimitConfigLimits (by decide)

/-- C3 (amended): the roll keeps a fresh window unchanged (`now ≤ end` —
this clause is unconditional, not restricted to stale windows), advances a
window that is stale by exactly `k` whole periods by exactly `k` periods,
and the returned window's end is never before `now`.  (The original claim's
"end strictly exceeds now" fails when `now` falls exactly on a rolled
boundary: the loop `for periodEnd.Before(now)` stops as soon as
`end ≥ now`, so the returned end can equal `now`; see the counterexample.) -/
theorem billing_roll_spec (ps pe now : Int) (k : Nat) :
    (now ≤ pe → rollPeriod ps pe now = (ps, pe)) ∧
    now ≤ (rollPeriod ps pe now).2 ∧
    (0 < k → (∀ j, j < k → monthsAfter pe j < now) → now ≤ monthsAfter pe k →
      rollPeriod ps pe now = (monthsAfter pe (k - 1), monthsAfter pe k)) :=
  ⟨fun h => rollPeriod_of_not_lt _ _ _ (not_lt.mpr h),
   rollPeriod_end_not_before _ _ _,
   fun h1 h2 h3 => rollPeriod_eq_monthsAfter now k ps pe h1 h2 h3⟩

theorem billing_roll_spec_witness :
    mkTime 2023 12 31 0 0 0 ≤ mkTime 2024 1 1 0 0 0 ∧
    rollPeriod 0 (mkTime 2024 1 1 0 0 0) (mkTime 2023 12 31 0 0 0) =
      (0, mkTime 2024 1 1 0 0 0) ∧
    rollPeriod 0 (mkTime 2024 1 1 0 0 0) (mkTime 2024 1 1 0 0 5) =
      (monthsAfter (mkTime 2024 1 1 0 0 0) 0, monthsAfter (mkTime 2024 1 1 0 0 0) 1) ∧
    mkTime 2024 1 1 0 0 5 ≤ (rollPeriod 0 (mkTime 2024 1 1 0 0 0) (mkTime 2024 1 1 0 0 5)).2 := by
  have hfresh : mkTime 2023 12 31 0 0 0 ≤ mkTime 2024 1 1 0 0 0 := by decide
  have hj : ∀ j, j < 1 → monthsAfter (mkTime 2024 1 1 0 0 0) j < mkTime 2024 1 1 0 0 5 := by
    intro j hj
    interval_cases j
    decide
  have hk : mkTime 2024 1 1 0 0 5 ≤ monthsAfter (mkTime 2024 1 1 0 0 0) 1 := by decide
  exact ⟨hfresh,
    (billing_roll_spec 0 (mkTime 2024 1 1 0 0 0) (mkTime 2023 12 31 0 0 0) 1).1 hfresh,
    (billing_roll_spec 0 (mkTime 2024 1 1 0 0 0) (mkTime 2024 1 1 0 0 5) 1).2.2
      Nat.one_pos hj hk,
    (billing_roll_spec 0 (mkTime 2024 1 1 0 0 0) (mkTime 2024 1 1 0 0 5) 1).2.1⟩

/-- C3 counterexample: with the stored window ending at 2024-01-01 00:00:00
UTC and `now` exactly 2024-02-01 00:00:00 UTC (one whole month later), the
window is stale (`end < now`) and the roll loop stops with the new end
*equal* to `now`, not strictly after it — refuting "the returned window's end
strictly exceeds now". -/
theorem billing_roll_strict_counterexample :
    mkTime 2024 1 1 0 0 0 < mkTime 2024 2 1 0 0 0 ∧
    ¬ (mkTime 2024 2 1 0 0 0 <
        (rollPeriod (mkTime 2023 12 1 0 0 0) (mkTime 2024 1 1 0 0 0)
          (mkTime 2024 2 1 0 0 0)).2) := by
  have h1 : addMonths (mkTime 2024 1 1 0 0 0) 1 = mkTime 2024 2 1 0 0 0 := by decide
  refine ⟨by decide, ?_⟩
  rw [rollPeriod_of_lt _ _ _ (by decide)]
  rw [rollPeriod_of_not_lt _ _ _ (by rw [h1]; omega)]
  show ¬ (mkTime 2024 2 1 0 0 0 < addMonths (mkTime 2024 1 1 0 0 0) 1)
  rw [h1]
  omega

/-- C5: the decision point (quota comparison of `ratelimit.go`, lines 72–77)
rejects exactly when the plan's limit is non-negative and the current count
has reached it; the rejecting response carries headers
`X-RateLimit-Limit = L`, `X-RateLimit-Remaining = 0`,
`X-RateLimit-Reset = period end`; and a negative (unlimited-sentinel) limit is
never rejected for quota, whatever the counter holds. -/
theorem quota_rejection_iff (limits : String → Int) (plan : String) (stats : UsageStats)
    (cache : Option String) (incFails : Bool) :
    ((∃ h, (rateLimitDecision limits plan (.ok stats) cache incFails).response =
        .rateLimitExceeded h) ↔ 0 ≤ limits plan ∧ limits plan ≤ stats.currentCount) ∧
    (0 ≤ limits plan → limits plan ≤ stats.currentCount →
      (rateLimitDecision limits plan (.ok stats) cache incFails).response =
        .rateLimitExceeded { limit := limits plan, remaining := 0,
                             reset := stats.periodEnd }) ∧
    (limits plan < 0 → ∀ h,
      (rateLimitDecision limits plan (.ok stats) cache incFails).response ≠
        .rateLimitExceeded h) := by
  by_cases hc : 0 ≤ limits plan ∧ limits plan ≤ stats.currentCount
  · simp only [rateLimitDecision, if_pos hc]
    refine ⟨⟨fun _ => hc, fun _ => ⟨_, rfl⟩⟩, by simp, fun hneg _ _ =>
      absurd hc.1 (not_le.mpr hneg)⟩
  · simp only [rateLimitDecision, if_neg hc]
    refine ⟨⟨?_, fun h => absurd h hc⟩, fun h1 h2 => absurd ⟨h1, h2⟩ hc, fun _ h heq => ?_⟩
    · rintro ⟨h, heq⟩
      exact absurd heq (by simp)
    · exact absurd heq (by simp)

theorem quota_rejection_iff_witness :
    (0 ≤ newRateLimitConfigLimits "FREE" ∧
      newRateLimitConfigLimits "FREE" ≤ (1000 : Int)) ∧
    ((∃ h, (rateLimitDecision newRateLimitConfigLimits "FREE"
        (.ok { currentCount := 1000, limit := 1000, remainingRequests := 0,
               periodEnd := 777 }) none false).response = .rateLimitExceeded h) ↔
      0 ≤ newRateLimitConfigLimits "FREE" ∧
        newRateLimitConfigLimits "FREE" ≤ (1000 : Int)) ∧
    (rateLimitDecision newRateLimitConfigLimits "FREE"
        (.ok { currentCount := 1000, limit := 1000, remainingRequests := 0,
               periodEnd := 777 }) none false).response =
      .rateLimitExceeded { limit := newRateLimitConfigLimits "FREE", remaining := 0,
                           reset := 777 } := by
  have h := quota_rejection_iff newRateLimitConfigLimits "FREE"
    { currentCount := 1000, limit := 1000, remainingRequests := 0, periodEnd := 777 }
    none false
  exact ⟨⟨by decide, by decide⟩, h.1, h.2.1 (by decide) (by decide)⟩

/-- C6: after an allowed request, the decision point increments the ledger
exactly when the response's `X-Cache` header is not exactly `"HIT"` — an
absent header or any other value is counted — the downstream handler was
invoked and the response is served; and an increment failure changes nothing
about the result (the code only logs it). -/
theorem cache_hit_accounting (limits : String → Int) (plan : String)
    (stats : UsageStats) (cache : Option String) (incFails : Bool)
    (hallow : ¬(0 ≤ limits plan ∧ limits plan ≤ stats.currentCount)) :
    (rateLimitDecision limits plan (.ok stats) cache incFails).handlerInvoked = true ∧
    ((rateLimitDecision limits plan (.ok stats) cache incFails).incrementCalled = true ↔
      cache ≠ some "HIT") ∧
    (∃ h, (rateLimitDecision limits plan (.ok stats) cache incFails).response =
      .served h) ∧
    rateLimitDecision limits plan (.ok stats) cache true =
      rateLimitDecision limits plan (.ok stats) cache false := by
  simp only [rateLimitDecision, if_neg hallow]
  refine ⟨by trivial, ?_, ⟨_, rfl⟩, by trivial⟩
  cases cache with
  | none => simp
  | some str => by_cases hstr : str = "HIT" <;> simp [hstr]

theorem cache_hit_accounting_witness :
    ¬(0 ≤ newRateLimitConfigLimits "ENTERPRISE" ∧
        newRateLimitConfigLimits "ENTERPRISE" ≤ (5 : Int)) ∧
    ((rateLimitDecision newRateLimitConfigLimits "ENTERPRISE"
        (.ok { currentCount := 5, limit := -1, remainingRequests := -6, periodEnd := 777 })
        (some "HIT") false).incrementCalled = true ↔
      (some "HIT" : Option String) ≠ some "HIT") ∧
    ((rateLimitDecision newRateLimitConfigLimits "ENTERPRISE"
        (.ok { currentCount := 5, limit := -1, remainingRequests := -6, periodEnd := 777 })
        none false).incrementCalled = true ↔ (none : Option String) ≠ some "HIT") := by
  refine ⟨by decide, ?_, ?_⟩
  · exact (cache_hit_accounting newRateLimitConfigLimits "ENTERPRISE"
      { currentCount := 5, limit := -1, remainingRequests := -6, periodEnd := 777 }
      (some "HIT") false (by decide)).2.1
  · exact (cache_hit_accounting newRateLimitConfigLimits "ENTERPRISE"
      { currentCount := 5, limit := -1, remainingRequests := -6, periodEnd := 777 }
      none false (by decide)).2.1

/-- C7: the IP burst guard's three transitions (`isIPRateLimited`): an unseen
address is recorded with count 1 and not limited; a call within the window
(at most one minute since last seen) increments the count, refreshes the
last-seen instant, and is limited exactly when the post-increment count
exceeds the ceiling; a call after the window has elapsed resets the count to
1 and is not limited — so a previously limited address is allowed again once
the window passes without calls. -/
theorem ip_burst_guard_transitions (ipBurstLimit now : Int) :
    isIPRateLimited ipBurstLimit now none =
      (false, { count := 1, lastSeen := now }) ∧
    (∀ l : IPLimitEntry, now - l.lastSeen ≤ 60 →
      isIPRateLimited ipBurstLimit now (some l) =
        (decide (ipBurstLimit < l.count + 1), { count := l.count + 1, lastSeen := now })) ∧
    (∀ l : IPLimitEntry, 60 < now - l.lastSeen →
      isIPRateLimited ipBurstLimit now (some l) =
        (false, { count := 1, lastSeen := now })) := by
  refine ⟨rfl, ?_, ?_⟩
  · intro l h
    simp only [isIPRateLimited, if_neg (not_lt.mpr h)]
  · intro l h
    simp only [isIPRateLimited, if_pos h]

theorem ip_burst_guard_transitions_witness :
    isIPRateLimited 2 100 none = (false, { count := 1, lastSeen := 100 }) ∧
    isIPRateLimited 2 100 (some { count := 2, lastSeen := 50 }) =
      (true, { count := 3, lastSeen := 100 }) ∧
    isIPRateLimited 2 200 (some { count := 3, lastSeen := 100 }) =
      (false, { count := 1, lastSeen := 200 }) := by
  refine ⟨(ip_burst_guard_transitions 2 100).1, ?_, ?_⟩
  · have h := (ip_burst_guard_transitions 2 100).2.1 { count := 2, lastSeen := 50 } (by decide)
    simpa using h
  · exact (ip_burst_guard_transitions 2 200).2.2 { count := 3, lastSeen := 100 } (by decide)

/-- C8: when the usage read fails (`GetCurrentUsage` returns any error), the
decision point fails closed: the request ends with the internal-error
response, the downstream handler is never invoked, and no increment is
attempted. -/
theorem usage_error_fails_closed (limits : String → Int) (plan : String) (e : DBErr)
    (cache : Option String) (incFails : Bool) :
    rateLimitDecision limits plan (.error e) cache incFails =
      { response := .usageFetchFailed, handlerInvoked := false,
        incrementCalled := false } :=
  rfl

/-- C9 counterexample: for the plan value `"BASIC"`, which is not in the
configured map, the Go map lookup yields the zero value `0`, not the Free
plan's `1000`; and under that limit a request with zero usage is immediately
quota-rejected with 429, so an unknown plan does affect the request. -/
theorem unknown_plan_default_counterexample :
    GetLimit "BASIC" = 0 ∧ ¬ GetLimit "BASIC" = 1000 ∧
    (rateLimitDecision newRateLimitConfigLimits "BASIC"
        (.ok { currentCount := 0, limit := 0, remainingRequests := 0, periodEnd := 777 })
        none false).response =
      .rateLimitExceeded { limit := 0, remaining := 0, reset := 777 } := by
  decide

/-- C9 (amended): a plan value not present in the configured limits map gets
the Go map zero value `0` — not the Free tier's `1000` — and since
`0 ≥ 0` and every counter is `≥ 0`, every request under such a plan is
rejected with the quota (429) response. -/
theorem unknown_plan_maps_to_zero (plan : String) (stats : UsageStats)
    (cache : Option String) (incFails : Bool)
    (hf : plan ≠ "FREE") (hp : plan ≠ "PRO") (he : plan ≠ "ENTERPRISE")
    (hc : 0 ≤ stats.currentCount) :
    GetLimit plan = 0 ∧
    (rateLimitDecision newRateLimitConfigLimits plan (.ok stats) cache incFails).response =
      .rateLimitExceeded { limit := 0, remaining := 0, reset := stats.periodEnd } := by
  have h0 : newRateLimitConfigLimits plan = 0 := by
    simp [newRateLimitConfigLimits, hf, hp, he]
  refine ⟨h0, ?_⟩
  have hcond : (0 : Int) ≤ 0 ∧ 0 ≤ stats.currentCount := ⟨le_refl 0, hc⟩
  simp only [rateLimitDecision, h0]
  rw [if_pos hcond]

theorem unknown_plan_maps_to_zero_witness :
    GetLimit "BASIC" = 0 ∧
    (rateLimitDecision newRateLimitConfigLimits "BASIC"
        (.ok { currentCount := 3, limit := 0, remainingRequests := -3, periodEnd := 999 })
        none false).response =
      .rateLimitExceeded { limit := 0, remaining := 0, reset := 999 } :=
  unknown_plan_maps_to_zero "BASIC"
    { currentCount := 3, limit := 0, remainingRequests := -3, periodEnd := 999 }
    none false (by decide) (by decide) (by decide) (by decide)

/-- A store with one active subscription anchored mid-month. -/
def subMidMonth : Subscription :=
  { id := 1, userID := "u1", planType := "PRO",
    startDate := mkTime 2024 1 15 0 0 0, endDate := mkTime 2024 2 15 0 0 0,
    status := "active" }

def dbMidMonth : DB :=
  { subscriptions := [subMidMonth], usages := [], nextUsageId := 0 }

/-- C10 counterexample: the two usage stacks are observably different.  With
one active subscription anchored mid-month (window 2024-01-15 to 2024-02-15)
and `now` = 2024-01-20, the subscription-anchored `GetCurrentUsage` reports
the persisted window's end (2024-02-15), while the calendar-month variant
reports the end of January's UTC calendar window — different statistics (and
different usage-record keys) from identical store state. -/
theorem stacks_not_equivalent_counterexample :
    getCurrentUsageService dbMidMonth (mkTime 2024 1 20 0 0 0) "u1" "PRO"
        newRateLimitConfigLimits ≠
      getCurrentUsageServiceCal dbMidMonth (mkTime 2024 1 20 0 0 0) "u1" "PRO"
        newRateLimitConfigLimits := by
  rw [getCurrentUsageService_spec dbMidMonth (mkTime 2024 1 20 0 0 0) "u1" "PRO"
    newRateLimitConfigLimits subMidMonth (by decide)]
  decide

/-- C10 (amended): the two stacks are not observationally equivalent in
general — a mid-month-anchored subscription yields different statistics
(see the counterexample) — but whenever the subscription's stored window
coincides with the UTC calendar-month window of `now`, the
subscription-anchored service/repository and the calendar-month
service/repository produce the same statistics and the same post-increment
store. -/
theorem stacks_agree_on_aligned_window (db : DB) (now : Int) (uid plan : String)
    (limits : String → Int) (sub : Subscription)
    (hsub : findSubByUser db uid = some sub)
    (hact : getActiveSubByUser db now uid = some sub)
    (hs : sub.startDate = calPeriodStart now)
    (he : sub.endDate = calPeriodEnd now) :
    getCurrentUsageService db now uid plan limits =
      getCurrentUsageServiceCal db now uid plan limits ∧
    incrementUsageSub db now uid = incrementUsageCal db now uid := by
  have hact' : db.subscriptions.find?
      (fun s => s.userID == uid && s.status == "active" && decide (now < s.endDate)) =
      some sub := hact
  have hpp := @List.find?_some _ _ _ _ hact'
  have hlt : now < sub.endDate := by
    simp only [Bool.and_eq_true, decide_eq_true_eq] at hpp
    exact hpp.2
  have hroll : rollPeriod sub.startDate sub.endDate now = (sub.startDate, sub.endDate) :=
    rollPeriod_of_not_lt _ _ _ (by omega)
  constructor
  · simp only [getCurrentUsageService, hact, hroll, getCurrentUsageServiceCal]
    rw [hs, he]
  · simp only [incrementUsageSub, hsub, hroll,
      if_neg (show ¬ sub.endDate < now by omega), incrementUsageCal]
    rw [hs, he]

def subAligned : Subscription :=
  { id := 1, userID := "u1", planType := "PRO",
    startDate := mkTime 2024 1 1 0 0 0,
    endDate := addMonths (mkTime 2024 1 1 0 0 0) 1 - 1,
    status := "active" }

def dbAligned : DB :=
  { subscriptions := [subAligned], usages := [], nextUsageId := 0 }

theorem stacks_agree_on_aligned_window_witness :
    getCurrentUsageService dbAligned (mkTime 2024 1 20 0 0 0) "u1" "PRO"
        newRateLimitConfigLimits =
      getCurrentUsageServiceCal dbAligned (mkTime 2024 1 20 0 0 0) "u1" "PRO"
        newRateLimitConfigLimits ∧
    incrementUsageSub dbAligned (mkTime 2024 1 20 0 0 0) "u1" =
      incrementUsageCal dbAligned (mkTime 2024 1 20 0 0 0) "u1" :=
  stacks_agree_on_aligned_window dbAligned (mkTime 2024 1 20 0 0 0) "u1" "PRO"
    newRateLimitConfigLimits subAligned (by decide) (by decide) (by decide) (by decide)

end LandmarkApi
